import Mathlib

/-!
Verification development for the in-page find-and-highlight engine
(webgrep): a shallow embedding of the match-finding search engine
(src/content/searchEngine.ts), the highlight coordinator
(highlightManager.ts) and the debounced search orchestrator
(searchController.ts), together with theorems about the claims of the
specification.

Host primitives are modelled explicitly:
* the JavaScript `RegExp` engine is modelled by a small pattern AST
  (`RE`), a compiler (`compileRE`) for the construct subset the program
  exercises, and a greedy backtracking matcher (`mEnds`) that follows
  the ECMAScript semantics (greedy quantifiers, backtracking, the
  empty-iteration stop rule of `RepeatMatcher`);
* the DOM is modelled as a list of text nodes in document order, each
  carrying the computed-style facts that `shouldIncludeNode` reads;
* `CSS.highlights` and the `Highlight` objects are modelled as explicit
  fields of the coordinator state; `isSupported()` is a boolean
  parameter of every coordinator operation;
* `setTimeout`/`clearTimeout` debouncing is modelled by an explicit
  pending-timer field holding the armed callback's captured arguments,
  plus a `fireTimer` transition for the timer callback running;
* `performance.now()` is modelled by an `elapsed` parameter holding the
  wall time the host reports for the traversal+match phase.

Recursive functions that mirror loops whose termination depends on host
behaviour take an explicit fuel argument; the fuel is chosen large
enough that it is never exhausted on the inputs considered.
-/

/-- Characters treated as whitespace by the model of
`String.prototype.trim` (the ASCII subset; the claims only exercise
ASCII text). -/
def jsWhitespace (c : Char) : Bool :=
  c = ' ' || c = '\t' || c = '\n' || c = '\r' || c = '\x0c' || c = '\x0b'

/-- Model of JavaScript `String.prototype.trim` on a character list:
drop whitespace from both ends. -/
def jsTrim (l : List Char) : List Char :=
  ((l.dropWhile jsWhitespace).reverse.dropWhile jsWhitespace).reverse

/-- Model of JavaScript `String.prototype.trim`. -/
def jsTrimStr (s : String) : String :=
  String.mk (jsTrim s.toList)

/-- Model of JavaScript `String.prototype.toLowerCase` (charwise ASCII
lowering; tag names are ASCII). -/
def jsToLower (s : String) : String :=
  String.mk (s.toList.map Char.toLower)

/-- The computed-style and tag facts about a text node's parent element
that `shouldIncludeNode` reads through `window.getComputedStyle` and
`parent.tagName`. -/
structure ParentInfo where
  display : String
  visibility : String
  opacity : String
  tag : String
deriving DecidableEq, Repr

/-- A DOM text node: its text content and its parent element (if any).
The document is modelled as the list of its text nodes in document
order (the order the `TreeWalker` traversal of `getTextNodesGenerator`
yields them). -/
structure TextNode where
  text : String
  parent : Option ParentInfo
deriving DecidableEq, Repr

/-- `SearchOptions` from src/types/search.ts. -/
structure SearchOptions where
  isRegex : Bool
  caseSensitive : Bool
  wholeWord : Bool
deriving DecidableEq, Repr

/-- `MatchData` from src/types/search.ts.  The live `Range` object is
determined by (`node`, `startOffset`, `endOffset`), which is exactly how
`createMatchData` constructs it, so the range is represented by those
fields. -/
structure MatchData where
  text : String
  index : Nat
  node : TextNode
  startOffset : Nat
  endOffset : Nat
deriving DecidableEq, Repr

/-- `SearchResult` from src/types/search.ts (`searchTime` is the
host-reported wall time, a number; modelled as `Nat`). -/
structure SearchResult where
  «matches» : List MatchData
  totalCount : Nat
  searchTime : Nat
deriving DecidableEq, Repr

/-- Result record of `SearchEngine.validatePattern`. -/
structure ValidationResult where
  isValid : Bool
  error : Option String
deriving DecidableEq, Repr

/-! ## Model of the host regular-expression engine

The AST covers the constructs the program's own patterns use: literal
characters, `.`, `\w`, `\b`, `^`, `$`, character classes, `*`, `+` and
groups.  `compileRE` (the model of `new RegExp`) fails with an error
message on malformed input (unbalanced groups, unterminated classes,
dangling quantifiers) and also on constructs outside this subset. -/

inductive RE where
  | ch (c : Char)
  | dot
  | wordc
  | wb
  | bol
  | eol
  | cls (ranges : List (Char × Char))
  | star (r : RE)
  | plus (r : RE)
  | grp (rs : List RE)

/-- The characters `escapeRegex` escapes, i.e. the character class
`[.*+?^$\x7b\x7d()|[\]\\]` of searchEngine.ts line 75. -/
def metaChars : List Char :=
  ['.', '*', '+', '?', '^', '$', '\x7b', '\x7d', '(', ')', '|', '[', ']', '\\']

/-- `SearchEngine.escapeRegex`: `text.replace(/[.*+?^$\x7b\x7d()|[\]\\]/g, "\\$&")` —
prefix every regex metacharacter with a backslash. -/
def escapeRegex (text : String) : String :=
  String.mk (text.toList.flatMap (fun c => if metaChars.contains c then ['\\', c] else [c]))

/-- Parse the body of a character class, after the opening `[`, up to the
closing `]`.  Supports plain characters and `a-z` style ranges (the
subset the program exercises); a trailing or leading `-` is literal, as
in ECMAScript. -/
def parseCls (fuel : Nat) (cs : List Char) : Except String (List (Char × Char) × List Char) :=
  match fuel, cs with
  | _, ']' :: rest => .ok ([], rest)
  | 0, _ => .error ("model parser out of fuel")
  | _, [] => .error ("Invalid regular expression: unterminated character class")
  | _ + 1, '\\' :: _ => .error ("model subset: escape inside character class not supported")
  | f + 1, c :: '-' :: d :: rest =>
    if d = ']' then
      match parseCls f ('-' :: d :: rest) with
      | .ok (rs, rest') => .ok ((c, c) :: rs, rest')
      | .error e => .error e
    else if d < c then .error ("Invalid regular expression: range out of order in character class")
    else
      match parseCls f rest with
      | .ok (rs, rest') => .ok ((c, d) :: rs, rest')
      | .error e => .error e
  | f + 1, c :: rest =>
    match parseCls f rest with
    | .ok (rs, rest') => .ok ((c, c) :: rs, rest')
    | .error e => .error e

/-- Attach a postfix quantifier to a just-parsed atom, if one follows. -/
def applyQuant (a : RE) (cs : List Char) : Except String (RE × List Char) :=
  match cs with
  | '*' :: rest => .ok (.star a, rest)
  | '+' :: rest => .ok (.plus a, rest)
  | '?' :: _ => .error ("model subset: optional quantifier not supported")
  | _ => .ok (a, cs)

/-- Recursive-descent parser for the pattern subset: parses a sequence of
quantified atoms until the end of input (or the closing `)` of the
enclosing group when `inGroup` is true). -/
def parseItems (fuel : Nat) (cs : List Char) (inGroup : Bool) :
    Except String (List RE × List Char) :=
  match fuel with
  | 0 => .error ("model parser out of fuel")
  | f + 1 =>
    match cs with
    | [] =>
      if inGroup then .error ("Invalid regular expression: missing closing parenthesis")
      else .ok ([], [])
    | ')' :: rest =>
      if inGroup then .ok ([], rest)
      else .error ("Invalid regular expression: unmatched closing parenthesis")
    | '\\' :: [] => .error ("Invalid regular expression: pattern may not end with a backslash")
    | '\\' :: e :: rest =>
      let atom : Except String RE :=
        if metaChars.contains e then .ok (.ch e)
        else if e = 'b' then .ok (.wb)
        else if e = 'w' then .ok (.wordc)
        else .error ("model subset: unsupported escape sequence")
      match atom with
      | .error m => .error m
      | .ok a =>
        match applyQuant a rest with
        | .error m => .error m
        | .ok (a2, rest2) =>
          match parseItems f rest2 inGroup with
          | .error m => .error m
          | .ok (items, rest3) => .ok (a2 :: items, rest3)
    | '(' :: rest =>
      match parseItems f rest true with
      | .error m => .error m
      | .ok (inner, rest') =>
        match applyQuant (.grp inner) rest' with
        | .error m => .error m
        | .ok (a2, rest2) =>
          match parseItems f rest2 inGroup with
          | .error m => .error m
          | .ok (items, rest3) => .ok (a2 :: items, rest3)
    | '[' :: rest =>
      match parseCls (rest.length + 1) rest with
      | .error m => .error m
      | .ok (rs, rest') =>
        match applyQuant (.cls rs) rest' with
        | .error m => .error m
        | .ok (a2, rest2) =>
          match parseItems f rest2 inGroup with
          | .error m => .error m
          | .ok (items, rest3) => .ok (a2 :: items, rest3)
    | '*' :: _ => .error ("Invalid regular expression: nothing to repeat")
    | '+' :: _ => .error ("Invalid regular expression: nothing to repeat")
    | '?' :: _ => .error ("Invalid regular expression: nothing to repeat")
    | '|' :: _ => .error ("model subset: alternation not supported")
    | '\x7b' :: _ => .error ("model subset: brace quantifier not supported")
    | '\x7d' :: _ => .error ("model subset: brace quantifier not supported")
    | c :: rest =>
      let simple : RE :=
        if c = '.' then .dot
        else if c = '^' then .bol
        else if c = '$' then .eol
        else .ch c
      match applyQuant simple rest with
      | .error m => .error m
      | .ok (a2, rest2) =>
        match parseItems f rest2 inGroup with
        | .error m => .error m
        | .ok (items, rest3) => .ok (a2 :: items, rest3)

/-- Model of `new RegExp(source)`: compile a pattern source string to the
AST, or fail with the compiler's error message. -/
def compileRE (source : String) : Except String (List RE) :=
  match parseItems (source.length + 1) source.toList false with
  | .error m => .error m
  | .ok (items, _) => .ok items

/-- Case canonicalisation for the `i` flag (ASCII model: both sides are
lowercased before comparison). -/
def foldc (ic : Bool) (c : Char) : Char :=
  if ic then c.toLower else c

/-- ECMAScript `\w`: `[A-Za-z0-9_]`. -/
def isWordChar (c : Char) : Bool :=
  c.isAlphanum || c = '_'

/-- Whether the character at position `i` (if any) is a word character. -/
def isWordAt (s : List Char) (i : Nat) : Bool :=
  match s.get? i with
  | some c => isWordChar c
  | none => false

/-- ECMAScript word-boundary test at position `i` of `s`. -/
def atBoundary (s : List Char) (i : Nat) : Bool :=
  (if i = 0 then false else isWordAt s (i - 1)) != isWordAt s i

/-- ECMAScript `.` (without the `s` flag): any character except a line
terminator. -/
def dotMatch (c : Char) : Bool :=
  !(c = '\n' || c = '\r' || c = Char.ofNat 0x2028 || c = Char.ofNat 0x2029)

/-- Character-class membership (with an ASCII model of `i`-flag
canonicalisation; classes are only compiled, never executed, by the
program's own patterns). -/
def clsMatch (ic : Bool) (ranges : List (Char × Char)) (c : Char) : Bool :=
  let inR := fun (x : Char) => ranges.any (fun r => decide (r.1 ≤ x) && decide (x ≤ r.2))
  inR c || (ic && (inR c.toLower || inR c.toUpper))

/-- A matching job: a single AST node, a sequence, or one-or-more
repetitions of a node (the loop of `RepeatMatcher`). -/
inductive MJob where
  | one (r : RE)
  | seq (rs : List RE)
  | star (r : RE)

/-- The backtracking matcher, following ECMAScript semantics.
`mEnds ic s fuel j i` returns the end positions at which job `j` can
match when started at position `i` of `s`, in the engine's preference
order (greedy: more repetitions first), so the head of the list is the
end position the JavaScript engine reports.  `MJob.star` produces the
ends reachable by one or more iterations, each iteration subject to the
`RepeatMatcher` rule that an iteration consuming nothing fails; a `*`
node appends the zero-iteration end `i` after them and a `+` node runs
one mandatory iteration (allowed to be empty) before the loop.  The fuel
only bounds recursion depth; it is chosen generously by `mFuel`. -/
def mEnds (ic : Bool) (s : List Char) : Nat → MJob → Nat → List Nat
  | 0, _, _ => []
  | _ + 1, .one (.ch c), i =>
    match s.get? i with
    | some d => if foldc ic d = foldc ic c then [i + 1] else []
    | none => []
  | _ + 1, .one .dot, i =>
    match s.get? i with
    | some d => if dotMatch d then [i + 1] else []
    | none => []
  | _ + 1, .one .wordc, i =>
    match s.get? i with
    | some d => if isWordChar d then [i + 1] else []
    | none => []
  | _ + 1, .one .wb, i => if atBoundary s i then [i] else []
  | _ + 1, .one .bol, i => if i = 0 then [i] else []
  | _ + 1, .one .eol, i => if i = s.length then [i] else []
  | _ + 1, .one (.cls rs), i =>
    match s.get? i with
    | some d => if clsMatch ic rs d then [i + 1] else []
    | none => []
  | f + 1, .one (.star r), i => mEnds ic s f (.star r) i ++ [i]
  | f + 1, .one (.plus r), i =>
    (mEnds ic s f (.one r) i).flatMap (fun e => mEnds ic s f (.star r) e ++ [e])
  | f + 1, .one (.grp rs), i => mEnds ic s f (.seq rs) i
  | _ + 1, .seq [], i => [i]
  | f + 1, .seq (r :: rs), i =>
    (mEnds ic s f (.one r) i).flatMap (fun e => mEnds ic s f (.seq rs) e)
  | f + 1, .star r, i =>
    ((mEnds ic s f (.one r) i).filter (fun e => e != i)).flatMap
      (fun e => mEnds ic s f (.star r) e ++ [e])

/-- Fuel bound for the matcher: ample for every pattern/input pair the
program produces (each recursion step either consumes a character across
an iteration or descends into the pattern, whose size is small). -/
def mFuel (s : List Char) : Nat :=
  (s.length + 2) * 50 + 100

/-- One `pattern.exec(text)` step of a global regex whose `lastIndex` is
`pos`: fail when `lastIndex` exceeds the length, otherwise report the
match at the first position at or after `pos` where the pattern matches,
as (match index, match end).  The fuel counts remaining candidate
positions. -/
def execFrom (ic : Bool) (s : List Char) (p : List RE) : Nat → Nat → Option (Nat × Nat)
  | 0, _ => none
  | f + 1, pos =>
    if s.length < pos then none
    else
      match mEnds ic s (mFuel s) (.seq p) pos with
      | e :: _ => some (pos, e)
      | [] => execFrom ic s p f (pos + 1)

/-- `SearchEngine.createMatchData`: build one `MatchData` for the match
spanning `[i, e)` of the node's text, with running global index `gIdx`. -/
def mkMatchData (node : TextNode) (s : List Char) (i e gIdx : Nat) : MatchData :=
  { text := String.mk ((s.drop i).take (e - i))
    index := gIdx
    node := node
    startOffset := i
    endOffset := e }

/-- The `pattern.exec` loop of `SearchEngine.findMatchesInNode`: starting
from `lastIndex = li`, repeatedly take the next match; after a match
ending at `e`, continue from `e`, or from `e + 1` when the match was
zero-width (the loop's explicit guard against stalling). -/
def findLoop (ic : Bool) (s : List Char) (p : List RE) (node : TextNode) :
    Nat → Nat → Nat → List MatchData
  | _, 0, _ => []
  | gIdx, f + 1, li =>
    match execFrom ic s p (s.length + 2) li with
    | none => []
    | some (i, e) =>
      mkMatchData node s i e gIdx ::
        findLoop ic s p node (gIdx + 1) f (if i = e then e + 1 else e)

/-- `SearchEngine.findMatchesInNode`: all matches of the compiled pattern
in one text node, with global indices starting at `startIndex`. -/
def findMatchesInNode (ic : Bool) (p : List RE) (node : TextNode) (startIndex : Nat) :
    List MatchData :=
  let s := node.text.toList
  findLoop ic s p node startIndex (s.length + 2) 0

/-- Tags rejected by `shouldIncludeNode` as non-visible / non-text. -/
def excludedTags : List String :=
  ["script", "style", "noscript", "iframe", "object", "embed", "svg"]

/-- Form-input-like tags rejected by `shouldIncludeNode`. -/
def inputTags : List String :=
  ["input", "textarea", "select"]

/-- `SearchEngine.shouldIncludeNode`: reject nodes with no parent, with
whitespace-only content, under hidden computed style, or under excluded
tags (returns the accept/reject decision as a boolean). -/
def shouldIncludeNode (node : TextNode) : Bool :=
  match node.parent with
  | none => false
  | some p =>
    if jsTrim node.text.toList = [] then false
    else if p.display = "none" || p.visibility = "hidden" || p.opacity = "0" then false
    else if excludedTags.contains (jsToLower p.tag) then false
    else if inputTags.contains (jsToLower p.tag) then false
    else true

/-- `SearchEngine.getTextNodesGenerator`: the accepted text nodes under
the root, in document order. -/
def textNodes (doc : List TextNode) : List TextNode :=
  doc.filter shouldIncludeNode

/-- `SearchEngine.MAX_MATCHES`. -/
def MAX_MATCHES : Nat := 10000

/-- `SearchEngine.buildPattern`: escape the text unless in regex mode,
wrap in `\b` anchors for whole-word mode, compile with the `g` flag and
the `i` flag unless case-sensitive.  Returns the compiled pattern and
the ignore-case flag, or `none` on compilation failure. -/
def buildPattern (searchText : String) (options : SearchOptions) :
    Option (List RE × Bool) :=
  let p0 := if options.isRegex then searchText else escapeRegex searchText
  let p1 := if options.wholeWord then "\\b" ++ p0 ++ "\\b" else p0
  match compileRE p1 with
  | .ok r => some (r, !options.caseSensitive)
  | .error _ => none

/-- The node loop of `SearchEngine.search`: before each node, stop if the
accumulated match count has reached `MAX_MATCHES`; otherwise append the
node's matches (indexed from the current count) and continue. -/
def searchLoopNodes (ic : Bool) (p : List RE) : List TextNode → List MatchData → List MatchData
  | [], acc => acc
  | n :: rest, acc =>
    if MAX_MATCHES ≤ acc.length then acc
    else searchLoopNodes ic p rest (acc ++ findMatchesInNode ic p n acc.length)

namespace SearchEngine

/-- `SearchEngine.search`: empty search text returns an empty result with
`searchTime = 0` (note: the code tests `!searchText`, i.e. the untrimmed
string); pattern-compilation failure likewise; otherwise traverse the
accepted nodes collecting matches, with `totalCount` the length of the
collected list and `searchTime` the host-reported elapsed time. -/
def search (searchText : String) (options : SearchOptions) (doc : List TextNode)
    (elapsed : Nat) : SearchResult :=
  if searchText = "" then { «matches» := [], totalCount := 0, searchTime := 0 }
  else
    match buildPattern searchText options with
    | none => { «matches» := [], totalCount := 0, searchTime := 0 }
    | some (p, ic) =>
      let ms := searchLoopNodes ic p (textNodes doc) []
      { «matches» := ms, totalCount := ms.length, searchTime := elapsed }

end SearchEngine

/-- `RegExp.prototype.test` (no `g` flag): whether the pattern matches
anywhere in the string. -/
def regexTest (p : List RE) (s : String) : Bool :=
  let l := s.toList
  (execFrom false l p (l.length + 2) 0).isSome

/-- The four `dangerousPatterns` regex literals of
`SearchEngine.validatePattern`, as compiled ASTs:
`(\w+)+\+`, `(a+)+\+`, `(a\*)\*\+` (a group matching the literal text
"a*", then a literal `*` and a literal `+`), and `(\(.+\))+\+`. -/
def dangerousPatterns : List (List RE) :=
  [ [.plus (.grp [.plus .wordc]), .ch '+'],
    [.plus (.grp [.plus (.ch 'a')]), .ch '+'],
    [.grp [.ch 'a', .ch '*'], .ch '*', .ch '+'],
    [.plus (.grp [.ch '(', .plus .dot, .ch ')']), .ch '+'] ]

namespace SearchEngine

/-- `SearchEngine.validatePattern`: reject patterns longer than 1000
characters; reject patterns that fail to compile with the compiler's
message; reject patterns matched by one of the dangerous-shape regexes;
accept otherwise. -/
def validatePattern (pattern : String) : ValidationResult :=
  if 1000 < pattern.length then
    { isValid := false, error := some ("Pattern too long (max 1000 characters)") }
  else
    match compileRE pattern with
    | .error m => { isValid := false, error := some m }
    | .ok _ =>
      if dangerousPatterns.any (fun d => regexTest d pattern) then
        { isValid := false,
          error := some ("Pattern contains potentially dangerous nested quantifiers") }
      else { isValid := true, error := none }

end SearchEngine

/-! ## Highlight coordinator (highlightManager.ts)

The coordinator state carries the two `Highlight` objects, the stored
match sequence, the current index, and the two `CSS.highlights` registry
entries the manager owns (under its two group names).  The
`HighlightManager.isSupported()` capability test reads the host
environment and is constant during a session, so it is passed as the
`supported` boolean to every operation.  When the capability is absent,
an operation that reaches a `Highlight` constructor or a
`CSS.highlights` access throws there; the field assignments already
performed persist, which is what the transition returns. -/

structure HMState where
  allMatchesHighlight : Option (List MatchData)
  currentMatchHighlight : Option MatchData
  «matches» : List MatchData
  currentIndex : Int
  registryAll : Option (List MatchData)
  registryCurrent : Option MatchData
deriving DecidableEq, Repr

/-- The field initialisers of `HighlightManager` (and an initially empty
registry). -/
def HMState.initial : HMState :=
  { allMatchesHighlight := none
    currentMatchHighlight := none
    «matches» := []
    currentIndex := -1
    registryAll := none
    registryCurrent := none }

namespace HighlightManager

/-- `HighlightManager.clearHighlights`: when the capability is supported,
delete both registry entries, null both `Highlight` objects, empty the
match sequence and reset the index; when unsupported, return before
touching anything. -/
def clearHighlights (supported : Bool) (s : HMState) : HMState :=
  if !supported then s
  else
    { allMatchesHighlight := none
      currentMatchHighlight := none
      «matches» := []
      currentIndex := -1
      registryAll := none
      registryCurrent := none }

/-- `HighlightManager.setCurrentMatch`: reject an out-of-range index with
a console warning and no state change; otherwise store the index, then
replace the current-match registry entry with a fresh single-range
`Highlight` and schedule the smooth scroll (a viewport-only effect).  In
an unsupported environment the `Highlight`/registry access throws after
the index assignment, so only the index update persists. -/
def setCurrentMatch (supported : Bool) (index : Int) (s : HMState) : HMState :=
  if index < 0 || (s.«matches».length : Int) ≤ index then s
  else
    let s1 := { s with currentIndex := index }
    if !supported then s1
    else
      match s.«matches».get? index.toNat with
      | none => s1
      | some cm =>
        let s2 := if s1.currentMatchHighlight.isSome then { s1 with registryCurrent := none } else s1
        { s2 with currentMatchHighlight := some cm, registryCurrent := some cm }

/-- `HighlightManager.nextMatch`: no-op on an empty match set; otherwise
advance cyclically (JavaScript `%` is truncated remainder, `Int.tmod`). -/
def nextMatch (supported : Bool) (s : HMState) : HMState :=
  if s.«matches».length = 0 then s
  else setCurrentMatch supported ((s.currentIndex + 1).tmod (s.«matches».length : Int)) s

/-- `HighlightManager.previousMatch`: no-op on an empty match set;
otherwise step back, wrapping from 0 to the last index. -/
def previousMatch (supported : Bool) (s : HMState) : HMState :=
  if s.«matches».length = 0 then s
  else
    let prev : Int :=
      if s.currentIndex - 1 < 0 then (s.«matches».length : Int) - 1 else s.currentIndex - 1
    setCurrentMatch supported prev s

/-- `HighlightManager.highlightMatches`: store the new sequence, then call
`clearHighlights` (which, when supported, resets the just-stored fields);
return early when the argument is empty or the capability is missing;
otherwise register the all-matches `Highlight` built from the argument
and set match 0 as current. -/
def highlightMatches (supported : Bool) (ms : List MatchData) (s : HMState) : HMState :=
  let s1 := { s with «matches» := ms }
  let s2 := clearHighlights supported s1
  if ms.length = 0 || !supported then s2
  else
    let s3 := { s2 with allMatchesHighlight := some ms, registryAll := some ms }
    if 0 < ms.length then setCurrentMatch supported 0 s3 else s3

/-- `HighlightManager.getCurrentIndex`. -/
def getCurrentIndex (s : HMState) : Int := s.currentIndex

/-- `HighlightManager.getTotalMatches`. -/
def getTotalMatches (s : HMState) : Nat := s.«matches».length

/-- `HighlightManager.hasMatches`. -/
def hasMatches (s : HMState) : Bool := decide (0 < s.«matches».length)

/-- `HighlightManager.getMatch`: bounds-checked lookup. -/
def getMatch (index : Int) (s : HMState) : Option MatchData :=
  if index < 0 || (s.«matches».length : Int) ≤ index then none
  else s.«matches».get? index.toNat

end HighlightManager

/-! ## Search orchestrator (searchController.ts)

The controller owns a `HighlightManager` state, the current
query/options, the last result, and the pending debounce timer, modelled
as the captured arguments of the armed `setTimeout` callback (arming a
new timer after `clearTimeout` replaces the field).  The two optional
observer callbacks are modelled by registration flags plus logs of the
invocations (argument lists), so theorems can count calls. -/

structure SCState where
  hm : HMState
  currentQuery : String
  currentOptions : SearchOptions
  searchResult : Option SearchResult
  debounceTimer : Option (String × SearchOptions)
  hasSearchCompleteCb : Bool
  hasMatchChangeCb : Bool
  completeCalls : List SearchResult
  matchChangeCalls : List (Int × Nat)
deriving DecidableEq, Repr

/-- The host environment a controller session runs in: the document's
text nodes, the highlight-capability flag, and the wall time the host
reports for a search. -/
structure SCEnv where
  doc : List TextNode
  supported : Bool
  elapsed : Nat
deriving DecidableEq, Repr

/-- The field initialisers of `SearchController` (no callbacks registered
yet, nothing logged). -/
def SCState.initial : SCState :=
  { hm := HMState.initial
    currentQuery := ""
    currentOptions := { isRegex := false, caseSensitive := false, wholeWord := false }
    searchResult := none
    debounceTimer := none
    hasSearchCompleteCb := false
    hasMatchChangeCb := false
    completeCalls := []
    matchChangeCalls := [] }

namespace SearchController

/-- `SearchController.clear`: clear highlights, drop the stored result
and query, cancel any pending debounce timer. -/
def clear (env : SCEnv) (s : SCState) : SCState :=
  { s with
    hm := HighlightManager.clearHighlights env.supported s.hm
    searchResult := none
    currentQuery := ""
    debounceTimer := none }

/-- `SearchController.performSearch`: clear previous state, store the
query/options, run the engine, highlight a non-empty result, then invoke
the registered callbacks (completion always, match-change only when
there is at least one match, with `(0, totalCount)`).  Returns the new
state and the result the promise resolves with. -/
def performSearch (env : SCEnv) (query : String) (options : SearchOptions) (s : SCState) :
    SCState × SearchResult :=
  let s1 := clear env s
  let s2 := { s1 with currentQuery := query, currentOptions := options }
  let r := SearchEngine.search query options env.doc env.elapsed
  let s3 := { s2 with searchResult := some r }
  let s4 :=
    if 0 < r.«matches».length then
      { s3 with hm := HighlightManager.highlightMatches env.supported r.«matches» s3.hm }
    else s3
  let s5 :=
    if s4.hasSearchCompleteCb then { s4 with completeCalls := s4.completeCalls ++ [r] } else s4
  let s6 :=
    if s5.hasMatchChangeCb && 0 < r.«matches».length then
      { s5 with matchChangeCalls := s5.matchChangeCalls ++ [((0 : Int), r.totalCount)] }
    else s5
  (s6, r)

/-- `SearchController.search` up to the point where control returns to
the caller: trim the query; an empty result short-circuits through
`clear` and resolves immediately with an empty result; a non-empty query
cancels any pending timer and arms a new one capturing the trimmed query
and the options (the debounce delay does not affect the state).  The
second component is the immediately-resolved result, if any. -/
def searchCall (env : SCEnv) (query : String) (options : SearchOptions)
    (_debounceMs : Nat) (s : SCState) : SCState × Option SearchResult :=
  let q := jsTrimStr query
  if q = "" then
    (clear env s, some { «matches» := [], totalCount := 0, searchTime := 0 })
  else
    ({ s with debounceTimer := some (q, options) }, none)

/-- The debounce timer firing: run `performSearch` with the captured
arguments and resolve the pending promise with its result; a state with
no armed timer has nothing to fire. -/
def fireTimer (env : SCEnv) (s : SCState) : SCState × Option SearchResult :=
  match s.debounceTimer with
  | none => (s, none)
  | some (q, o) =>
    let pr := performSearch env q o s
    (pr.1, some pr.2)

/-- `SearchController.navigateToMatch`: return early when the coordinator
has no matches; otherwise delegate to `setCurrentMatch` and, when a
match-change callback is registered, invoke it with the coordinator's
(possibly unchanged) current index and total. -/
def navigateToMatch (env : SCEnv) (index : Int) (s : SCState) : SCState :=
  if !(HighlightManager.hasMatches s.hm) then s
  else
    let hm' := HighlightManager.setCurrentMatch env.supported index s.hm
    let s1 := { s with hm := hm' }
    if s1.hasMatchChangeCb then
      { s1 with
        matchChangeCalls :=
          s1.matchChangeCalls ++
            [(HighlightManager.getCurrentIndex hm', HighlightManager.getTotalMatches hm')] }
    else s1

end SearchController

/-! ## Concrete fixtures used by witnesses and counterexamples -/

/-- A visible parent element (accepted by every `shouldIncludeNode`
check). -/
def visibleParent : ParentInfo :=
  { display := "block", visibility := "visible", opacity := "1", tag := "div" }

/-- A text node under a visible parent. -/
def textNodeOf (t : String) : TextNode :=
  { text := t, parent := some visibleParent }

/-- A sample match descriptor. -/
def sampleMatch : MatchData :=
  { text := "a", index := 0, node := textNodeOf ("a"), startOffset := 0, endOffset := 1 }

/-- A second sample match descriptor. -/
def sampleMatch1 : MatchData :=
  { sampleMatch with index := 1 }

/-- A coordinator state holding one match with match 0 current. -/
def oneMatchState : HMState :=
  { HMState.initial with «matches» := [sampleMatch], currentIndex := 0 }

/-- A coordinator state holding two matches with match 0 current. -/
def twoMatchState : HMState :=
  { HMState.initial with «matches» := [sampleMatch, sampleMatch1], currentIndex := 0 }

/-- A controller state with two matches and a match-change callback. -/
def twoMatchController : SCState :=
  { SCState.initial with hm := twoMatchState, hasMatchChangeCb := true }

/-- A host environment with one small text node, highlight support and a
4 ms search time. -/
def sampleEnv : SCEnv :=
  { doc := [textNodeOf ("xyz xy x")], supported := true, elapsed := 4 }

/-- A single text node containing 10050 occurrences of the character
`a`. -/
def bigNode : TextNode :=
  { text := String.mk (List.replicate 10050 'a'), parent := some visibleParent }

/-- A pattern of 1001 characters (over the validation length limit). -/
def longPat : String :=
  String.mk (List.replicate 1001 'a')

/-- Literal, case-sensitive, non-whole-word options. -/
def csOptions : SearchOptions :=
  { isRegex := false, caseSensitive := true, wholeWord := false }

/-- Literal, case-insensitive, non-whole-word options (the
controller's defaults). -/
def plainOptions : SearchOptions :=
  { isRegex := false, caseSensitive := false, wholeWord := false }

/-- Regex-mode, case-insensitive, non-whole-word options. -/
def regexOptions : SearchOptions :=
  { isRegex := true, caseSensitive := false, wholeWord := false }

/-! ## Theorems -/

/-- C1: per the specification, `highlightMatches(ms)` for non-empty `ms`
should store `ms`, make match 0 current, and report `length ms` total
matches.  The code instead assigns `this.matches = matches` *before*
calling `clearHighlights()`, which (in a supported environment) resets
the just-stored sequence to `[]` and the index to `-1`; the subsequent
internal `setCurrentMatch(0)` call then always fails its own bounds
check.  This theorem evaluates the model at the failing input: one
match, supported environment — the stored sequence ends empty, the index
`-1`, the total `0` and `hasMatches` false, while the all-matches
highlight built from the argument is still registered (showing the
intended order was clear-then-store). -/
theorem C1_code_eval :
    (HighlightManager.highlightMatches true [sampleMatch] HMState.initial).«matches» = [] ∧
    (HighlightManager.highlightMatches true [sampleMatch] HMState.initial).currentIndex = -1 ∧
    HighlightManager.getTotalMatches
      (HighlightManager.highlightMatches true [sampleMatch] HMState.initial) = 0 ∧
    HighlightManager.hasMatches
      (HighlightManager.highlightMatches true [sampleMatch] HMState.initial) = false ∧
    (HighlightManager.highlightMatches true [sampleMatch] HMState.initial).registryAll =
      some [sampleMatch] := by
  decide

/-- C4 counterexample: in an unsupported environment `clearHighlights`
returns before touching any state, so from a state holding one match
with index 0 the match sequence is not emptied and the index is not
reset — refuting the claim's "in every coordinator state (including
when the highlight-registration capability is unsupported)". -/
theorem C4_counterexample :
    ¬ ((HighlightManager.clearHighlights false oneMatchState).«matches» = [] ∧
       (HighlightManager.clearHighlights false oneMatchState).currentIndex = -1) := by
  decide

/-- C4 (amended): when the capability is supported, `clearHighlights`
resets the coordinator to the empty state (match sequence `[]`, index
`-1`); and in every environment — supported or not — calling it twice
produces the same state as calling it once. -/
theorem C4_amended (supported : Bool) (s : HMState) :
    (supported = true → HighlightManager.clearHighlights supported s = HMState.initial) ∧
    HighlightManager.clearHighlights supported (HighlightManager.clearHighlights supported s) =
      HighlightManager.clearHighlights supported s := by
  cases supported <;> simp [HighlightManager.clearHighlights, HMState.initial]

/-- C4 witness: the amended theorem at a supported environment and a
concrete non-empty state. -/
theorem C4_amended_witness :
    HighlightManager.clearHighlights true oneMatchState = HMState.initial ∧
    HighlightManager.clearHighlights true (HighlightManager.clearHighlights true oneMatchState) =
      HighlightManager.clearHighlights true oneMatchState :=
  ⟨(C4_amended true oneMatchState).1 rfl, (C4_amended true oneMatchState).2⟩

/-- C5 counterexample: `SearchEngine.search` tests `!searchText` — the
*untrimmed* string — so a whitespace-only query such as a single space
is truthy, a pattern is compiled, the document is traversed, and on a
document containing the text node "a b" one match is found, with the
host-reported `searchTime` (here 5), refuting "empty or whitespace-only
after trimming … returns an empty result with `searchTime = 0`". -/
theorem C5_counterexample :
    (SearchEngine.search (" ") plainOptions [textNodeOf ("a b")] 5).totalCount = 1 ∧
    (SearchEngine.search (" ") plainOptions [textNodeOf ("a b")] 5).searchTime = 5 := by
  decide

/-- C5 (amended): for the *empty* input text (the only case the code's
falsy test catches), `search` returns the empty result with
`searchTime = 0` for every options, document and host-reported time,
without compiling a pattern or traversing the document; whitespace-only
non-empty text is searched normally (the orchestrator trims queries
before they reach the engine). -/
theorem C5_amended (options : SearchOptions) (doc : List TextNode) (elapsed : Nat) :
    SearchEngine.search ("") options doc elapsed =
      { «matches» := [], totalCount := 0, searchTime := 0 } :=
  rfl

/-- C5 witness: the amended theorem at concrete options, document and
elapsed time. -/
theorem C5_amended_witness :
    SearchEngine.search ("") plainOptions [textNodeOf ("a b")] 5 =
      { «matches» := [], totalCount := 0, searchTime := 0 } :=
  C5_amended plainOptions [textNodeOf ("a b")] 5

/-- C7: with `isRegex = false` the query's regex metacharacters are
escaped and matched literally under every combination of the other two
options: searching "a.b" in the text "a.b and axb" yields exactly one
match — the literal "a.b" at offsets [0, 3) — and never matches
"axb". -/
theorem C7_literal_metachars (cs ww : Bool) :
    (SearchEngine.search ("a.b") { isRegex := false, caseSensitive := cs, wholeWord := ww }
        [textNodeOf ("a.b and axb")] 3).«matches».map
      (fun m => (m.text, m.startOffset, m.endOffset)) = [("a.b", 0, 3)] ∧
    (SearchEngine.search ("a.b") { isRegex := false, caseSensitive := cs, wholeWord := ww }
        [textNodeOf ("a.b and axb")] 3).totalCount = 1 := by
  cases cs <;> cases ww <;> exact ⟨by decide, by decide⟩

/-- C7 witness: the theorem at the case-sensitive, whole-word corner. -/
theorem C7_literal_metachars_witness :
    (SearchEngine.search ("a.b") { isRegex := false, caseSensitive := true, wholeWord := true }
        [textNodeOf ("a.b and axb")] 3).«matches».map
      (fun m => (m.text, m.startOffset, m.endOffset)) = [("a.b", 0, 3)] ∧
    (SearchEngine.search ("a.b") { isRegex := false, caseSensitive := true, wholeWord := true }
        [textNodeOf ("a.b and axb")] 3).totalCount = 1 :=
  C7_literal_metachars true true

/-- `setCurrentMatch` with an out-of-range index is rejected by the
bounds check (only a console warning is emitted): the state is
unchanged. -/
theorem setCurrentMatch_oob (supported : Bool) (i : Int) (s : HMState)
    (h : i < 0 ∨ (s.«matches».length : Int) ≤ i) :
    HighlightManager.setCurrentMatch supported i s = s := by
  unfold HighlightManager.setCurrentMatch
  rw [if_pos]
  simp only [Bool.or_eq_true, decide_eq_true_eq]
  exact h

/-- `setCurrentMatch` with an in-range index stores the index (whether or
not the highlight capability is supported — the index assignment
precedes the host accesses) and never touches the match sequence. -/
theorem setCurrentMatch_inb (supported : Bool) (i : Int) (s : HMState)
    (h0 : 0 ≤ i) (h1 : i < (s.«matches».length : Int)) :
    (HighlightManager.setCurrentMatch supported i s).currentIndex = i ∧
    (HighlightManager.setCurrentMatch supported i s).«matches» = s.«matches» := by
  unfold HighlightManager.setCurrentMatch
  rw [if_neg (by simp only [Bool.or_eq_true, decide_eq_true_eq]; omega)]
  cases supported
  · exact ⟨rfl, rfl⟩
  · simp only [Bool.not_true, Bool.false_eq_true, if_false]
    cases hget : s.«matches».get? i.toNat
    · exact ⟨rfl, rfl⟩
    · cases hsome : (s.currentMatchHighlight).isSome <;> simp [hget, hsome]

/-- One `nextMatch` step from a valid current index `j` advances to
`(j + 1) % length` and preserves the match sequence. -/
theorem nextMatch_step (supported : Bool) (s : HMState) (j : Nat)
    (hcur : s.currentIndex = (j : Int)) (hj : j < s.«matches».length) :
    (HighlightManager.nextMatch supported s).currentIndex =
      (((j + 1) % s.«matches».length : Nat) : Int) ∧
    (HighlightManager.nextMatch supported s).«matches» = s.«matches» := by
  have hlen : s.«matches».length ≠ 0 := by omega
  unfold HighlightManager.nextMatch
  rw [if_neg hlen]
  have harg : (s.currentIndex + 1).tmod (s.«matches».length : Int) =
      (((j + 1) % s.«matches».length : Nat) : Int) := by
    rw [hcur]
    have hc : ((j : Int) + 1) = ((j + 1 : Nat) : Int) := by push_cast; ring
    rw [hc, ← Int.ofNat_tmod]
  rw [harg]
  exact setCurrentMatch_inb supported _ s (by positivity)
    (by exact_mod_cast Nat.mod_lt _ (by omega))

/-- Iterating `nextMatch` `k` times from a valid current index `j` lands
on `(j + k) % length` and preserves the match sequence. -/
theorem nextMatch_iter (supported : Bool) (k : Nat) :
    ∀ (s : HMState) (j : Nat), s.currentIndex = (j : Int) → j < s.«matches».length →
    ((HighlightManager.nextMatch supported)^[k] s).currentIndex =
      (((j + k) % s.«matches».length : Nat) : Int) ∧
    ((HighlightManager.nextMatch supported)^[k] s).«matches» = s.«matches» := by
  induction k with
  | zero =>
    intro s j hj hlt
    refine ⟨?_, rfl⟩
    simp only [Function.iterate_zero, id]
    rw [hj, Nat.add_zero, Nat.mod_eq_of_lt hlt]
  | succ k ih =>
    intro s j hj hlt
    rw [Function.iterate_succ_apply]
    obtain ⟨h1, h2⟩ := nextMatch_step supported s j hj hlt
    have hlt' : (j + 1) % s.«matches».length <
        (HighlightManager.nextMatch supported s).«matches».length := by
      rw [h2]; exact Nat.mod_lt _ (by omega)
    obtain ⟨h3, h4⟩ := ih (HighlightManager.nextMatch supported s) ((j + 1) % s.«matches».length)
      (by rw [h1]) hlt'
    refine ⟨?_, by rw [h4, h2]⟩
    rw [h3, h2]
    congr 1
    have hadd : (j + 1) + k = j + (k + 1) := by ring
    rw [Nat.add_mod, Nat.mod_mod, ← Nat.add_mod, hadd]

/-- `previousMatch` from current index 0 wraps to the last index
(`length - 1`). -/
theorem previousMatch_from_zero (supported : Bool) (s : HMState)
    (hcur : s.currentIndex = 0) (hne : s.«matches».length ≠ 0) :
    (HighlightManager.previousMatch supported s).currentIndex =
      (s.«matches».length : Int) - 1 := by
  unfold HighlightManager.previousMatch
  rw [if_neg hne]
  have hbr : (if s.currentIndex - 1 < 0 then (s.«matches».length : Int) - 1
      else s.currentIndex - 1) = (s.«matches».length : Int) - 1 := by
    rw [hcur]; norm_num
  rw [hbr]
  exact (setCurrentMatch_inb supported _ s (by omega) (by omega)).1

/-- C9: from every coordinator state with `N > 0` matches and current
index 0, calling `nextMatch` `N` times returns the current index to 0
(next wraps from the last index back to 0), a single `previousMatch`
lands on index `N - 1` (previous wraps from 0 to the last index), and
both navigations are no-ops on an empty match set. -/
theorem C9_cyclic_navigation (supported : Bool) (s : HMState) (N : Nat)
    (hN : s.«matches».length = N) (hpos : 0 < N) (hidx : s.currentIndex = 0) :
    ((HighlightManager.nextMatch supported)^[N] s).currentIndex = 0 ∧
    (HighlightManager.previousMatch supported s).currentIndex = (N : Int) - 1 ∧
    (∀ t : HMState, t.«matches» = [] →
      HighlightManager.nextMatch supported t = t ∧
      HighlightManager.previousMatch supported t = t) := by
  refine ⟨?_, ?_, ?_⟩
  · have h := (nextMatch_iter supported N s 0 (by exact_mod_cast hidx) (by omega)).1
    rw [h, Nat.zero_add, hN, Nat.mod_self]
    rfl
  · rw [previousMatch_from_zero supported s hidx (by omega), hN]
  · intro t ht
    constructor
    · unfold HighlightManager.nextMatch
      rw [if_pos (by rw [ht]; rfl)]
    · unfold HighlightManager.previousMatch
      rw [if_pos (by rw [ht]; rfl)]

/-- C9 witness: the cyclic-navigation theorem at a concrete supported
state with two matches and current index 0. -/
theorem C9_cyclic_navigation_witness :
    ((HighlightManager.nextMatch true)^[2] twoMatchState).currentIndex = 0 ∧
    (HighlightManager.previousMatch true twoMatchState).currentIndex = (2 : Int) - 1 ∧
    (∀ t : HMState, t.«matches» = [] →
      HighlightManager.nextMatch true t = t ∧
      HighlightManager.previousMatch true t = t) :=
  C9_cyclic_navigation true twoMatchState 2 (by decide) (by decide) (by decide)

/-- C10: when the coordinator holds at least one match and a match-change
callback is registered, `navigateToMatch i` with `i` outside
`[0, totalMatches)` leaves the coordinator state unchanged (the
out-of-range index is rejected inside `setCurrentMatch`), yet still
invokes the match-change callback once, reporting the unchanged current
index and total. -/
theorem C10_navigate_out_of_range (env : SCEnv) (s : SCState) (i : Int)
    (hmne : s.hm.«matches» ≠ [])
    (hcb : s.hasMatchChangeCb = true)
    (hoob : i < 0 ∨ (s.hm.«matches».length : Int) ≤ i) :
    SearchController.navigateToMatch env i s =
      { s with matchChangeCalls :=
          s.matchChangeCalls ++ [(s.hm.currentIndex, s.hm.«matches».length)] } := by
  unfold SearchController.navigateToMatch
  have h1 : HighlightManager.hasMatches s.hm = true := by
    unfold HighlightManager.hasMatches
    simp [List.length_pos, hmne]
  rw [h1]
  simp only [Bool.not_true, Bool.false_eq_true, if_false]
  rw [setCurrentMatch_oob env.supported i s.hm hoob, hcb]
  rfl

/-- C10 witness: the out-of-range navigation theorem at a concrete
controller state with two matches, a registered callback and index 5. -/
theorem C10_navigate_out_of_range_witness :
    SearchController.navigateToMatch sampleEnv 5 twoMatchController =
      { twoMatchController with
        matchChangeCalls := twoMatchController.matchChangeCalls ++
          [(twoMatchController.hm.currentIndex, twoMatchController.hm.«matches».length)] } :=
  C10_navigate_out_of_range sampleEnv twoMatchController 5 (by decide) (by decide)
    (by right; decide)

/-- C8: `validatePattern` rejects every pattern longer than 1000
characters; rejects every pattern that fails to compile, reporting the
compiler's error message (e.g. the unterminated group "(abc"); and
accepts "^[a-z]+$" (which compiles and trips none of the four
dangerous-shape tests). -/
theorem C8_validatePattern :
    (∀ p : String, 1000 < p.length → (SearchEngine.validatePattern p).isValid = false) ∧
    (∀ (p : String) (m : String), compileRE p = .error m → p.length ≤ 1000 →
      SearchEngine.validatePattern p = { isValid := false, error := some m }) ∧
    SearchEngine.validatePattern ("^[a-z]+$") = { isValid := true, error := none } := by
  refine ⟨?_, ?_, ?_⟩
  · intro p hp
    unfold SearchEngine.validatePattern
    rw [if_pos hp]
  · intro p m hc hl
    unfold SearchEngine.validatePattern
    rw [if_neg (by omega), hc]
  · decide

/-- C8 witness: the validation theorem at a 1001-character pattern, at
the unterminated group "(abc", and at "^[a-z]+$". -/
theorem C8_validatePattern_witness :
    (SearchEngine.validatePattern longPat).isValid = false ∧
    SearchEngine.validatePattern ("(abc") =
      { isValid := false,
        error := some ("Invalid regular expression: missing closing parenthesis") } ∧
    SearchEngine.validatePattern ("^[a-z]+$") = { isValid := true, error := none } :=
  ⟨C8_validatePattern.1 longPat
     (by
       have hlen : longPat.length = (List.replicate 1001 'a').length := rfl
       rw [hlen, List.length_replicate]
       omega),
   C8_validatePattern.2.1 ("(abc")
     ("Invalid regular expression: missing closing parenthesis") rfl (by decide),
   C8_validatePattern.2.2⟩

/-- A `search()` call with a query that is non-empty after trimming only
replaces the pending debounce timer (`clearTimeout` + `setTimeout`): no
other field changes, no search executes, no callback runs. -/
theorem searchCall_nonempty (env : SCEnv) (q : String) (opts : SearchOptions) (dms : Nat)
    (s : SCState) (hq : jsTrimStr q ≠ "") :
    (SearchController.searchCall env q opts dms s).1 =
      { s with debounceTimer := some (jsTrimStr q, opts) } := by
  unfold SearchController.searchCall
  rw [if_neg hq]

/-- Folding a burst of trim-non-empty `search()` calls (no timer firing
in between) leaves the controller unchanged except that the pending
timer holds the last call's trimmed query and options. -/
theorem searchCall_fold (env : SCEnv) (opts : SearchOptions) (dms : Nat) :
    ∀ (qs : List String) (s : SCState) (hne : qs ≠ []),
    (∀ q ∈ qs, jsTrimStr q ≠ "") →
    qs.foldl (fun t q => (SearchController.searchCall env q opts dms t).1) s =
      { s with debounceTimer := some (jsTrimStr (qs.getLast hne), opts) } := by
  intro qs
  induction qs with
  | nil => intro s hne; exact absurd rfl hne
  | cons q rest ih =>
    intro s hne hall
    cases rest with
    | nil =>
      simp only [List.foldl_cons, List.foldl_nil]
      rw [searchCall_nonempty env q opts dms s (hall q (by simp))]
      rfl
    | cons q2 rest2 =>
      have hne2 : q2 :: rest2 ≠ [] := by simp
      rw [List.foldl_cons,
        searchCall_nonempty env q opts dms s (hall q (by simp)),
        ih _ hne2 (fun x hx => hall x (by simp [hx])),
        List.getLast_cons hne2]

/-- What one `performSearch` run does to the observable orchestrator
state: the promise resolves with the engine's result, the result is
stored, and the completion callback is invoked exactly once (appending
exactly one entry to the invocation log) precisely when a completion
callback is registered. -/
theorem performSearch_spec (env : SCEnv) (q : String) (opts : SearchOptions) (s : SCState) :
    (SearchController.performSearch env q opts s).2 =
      SearchEngine.search q opts env.doc env.elapsed ∧
    (SearchController.performSearch env q opts s).1.searchResult =
      some (SearchEngine.search q opts env.doc env.elapsed) ∧
    (SearchController.performSearch env q opts s).1.completeCalls =
      (if s.hasSearchCompleteCb = true then
        s.completeCalls ++ [SearchEngine.search q opts env.doc env.elapsed]
      else s.completeCalls) := by
  by_cases h1 : 0 < (SearchEngine.search q opts env.doc env.elapsed).«matches».length <;>
    cases hsc : s.hasSearchCompleteCb <;> cases hmc : s.hasMatchChangeCb <;>
      simp [SearchController.performSearch, SearchController.clear, h1, hsc, hmc]

/-- C3: for every burst of `search()` calls whose queries are non-empty
after trimming, all made within one debounce window (each call before
the previous timer fires), only the last call's timer remains armed —
the burst leaves the controller state untouched except for that timer —
and when the timer fires, exactly one search executes and is applied:
the promise result and the stored result are the engine result for the
*last* call's query, and the completion callback is invoked exactly once
(one log entry), with that result, precisely when a completion callback
is registered.  No earlier call's result is ever produced, so none can
be applied after a newer call's. -/
theorem C3_debounce_last_call_wins (env : SCEnv) (s0 : SCState) (opts : SearchOptions)
    (dms : Nat) (qs : List String) (hne : qs ≠ [])
    (hq : ∀ q ∈ qs, jsTrimStr q ≠ "") :
    (qs.foldl (fun t q => (SearchController.searchCall env q opts dms t).1) s0 =
      { s0 with debounceTimer := some (jsTrimStr (qs.getLast hne), opts) }) ∧
    ((SearchController.fireTimer env
        (qs.foldl (fun t q => (SearchController.searchCall env q opts dms t).1) s0)).2 =
      some (SearchEngine.search (jsTrimStr (qs.getLast hne)) opts env.doc env.elapsed)) ∧
    ((SearchController.fireTimer env
        (qs.foldl (fun t q => (SearchController.searchCall env q opts dms t).1) s0)).1.searchResult =
      some (SearchEngine.search (jsTrimStr (qs.getLast hne)) opts env.doc env.elapsed)) ∧
    ((SearchController.fireTimer env
        (qs.foldl (fun t q => (SearchController.searchCall env q opts dms t).1) s0)).1.completeCalls =
      if s0.hasSearchCompleteCb = true then
        s0.completeCalls ++
          [SearchEngine.search (jsTrimStr (qs.getLast hne)) opts env.doc env.elapsed]
      else s0.completeCalls) := by
  have hfold := searchCall_fold env opts dms qs s0 hne hq
  have hfire : SearchController.fireTimer env
      { s0 with debounceTimer := some (jsTrimStr (qs.getLast hne), opts) } =
      ((SearchController.performSearch env (jsTrimStr (qs.getLast hne)) opts
          { s0 with debounceTimer := some (jsTrimStr (qs.getLast hne), opts) }).1,
        some ((SearchController.performSearch env (jsTrimStr (qs.getLast hne)) opts
          { s0 with debounceTimer := some (jsTrimStr (qs.getLast hne), opts) }).2)) := rfl
  obtain ⟨hs2, hs3, hs4⟩ := performSearch_spec env (jsTrimStr (qs.getLast hne)) opts
    { s0 with debounceTimer := some (jsTrimStr (qs.getLast hne), opts) }
  refine ⟨hfold, ?_, ?_, ?_⟩
  · rw [hfold, hfire]
    simpa using hs2
  · rw [hfold, hfire]
    simpa using hs3
  · rw [hfold, hfire]
    simpa using hs4

/-- C3 witness: the burst "x", "xy", "xyz" against a one-node document
with a registered completion callback — the single fire produces the
result for "xyz" and exactly one completion-callback invocation. -/
theorem C3_debounce_witness :
    ((["x", "xy", "xyz"]).foldl
        (fun t q => (SearchController.searchCall sampleEnv q plainOptions 300 t).1)
        { SCState.initial with hasSearchCompleteCb := true } =
      { { SCState.initial with hasSearchCompleteCb := true } with
          debounceTimer := some (jsTrimStr ((["x", "xy", "xyz"]).getLast (by simp)), plainOptions) }) ∧
    ((SearchController.fireTimer sampleEnv
        ((["x", "xy", "xyz"]).foldl
          (fun t q => (SearchController.searchCall sampleEnv q plainOptions 300 t).1)
          { SCState.initial with hasSearchCompleteCb := true })).2 =
      some (SearchEngine.search (jsTrimStr ((["x", "xy", "xyz"]).getLast (by simp)))
        plainOptions sampleEnv.doc sampleEnv.elapsed)) ∧
    ((SearchController.fireTimer sampleEnv
        ((["x", "xy", "xyz"]).foldl
          (fun t q => (SearchController.searchCall sampleEnv q plainOptions 300 t).1)
          { SCState.initial with hasSearchCompleteCb := true })).1.searchResult =
      some (SearchEngine.search (jsTrimStr ((["x", "xy", "xyz"]).getLast (by simp)))
        plainOptions sampleEnv.doc sampleEnv.elapsed)) ∧
    ((SearchController.fireTimer sampleEnv
        ((["x", "xy", "xyz"]).foldl
          (fun t q => (SearchController.searchCall sampleEnv q plainOptions 300 t).1)
          { SCState.initial with hasSearchCompleteCb := true })).1.completeCalls =
      if ({ SCState.initial with hasSearchCompleteCb := true } : SCState).hasSearchCompleteCb = true
      then ({ SCState.initial with hasSearchCompleteCb := true } : SCState).completeCalls ++
        [SearchEngine.search (jsTrimStr ((["x", "xy", "xyz"]).getLast (by simp)))
          plainOptions sampleEnv.doc sampleEnv.elapsed]
      else ({ SCState.initial with hasSearchCompleteCb := true } : SCState).completeCalls) :=
  C3_debounce_last_call_wins sampleEnv { SCState.initial with hasSearchCompleteCb := true }
    plainOptions 300 ["x", "xy", "xyz"] (by simp) (by decide)

/-- `String.toList` has the string's length. -/
theorem strLen_toList (s : String) : s.toList.length = s.length := rfl

/-- Every end position the matcher reports lies between the start
position and the end of the text (when started inside the text). -/
theorem mEnds_bounds (ic : Bool) (s : List Char) :
    ∀ (fuel : Nat) (j : MJob) (i : Nat), i ≤ s.length →
    ∀ e ∈ mEnds ic s fuel j i, i ≤ e ∧ e ≤ s.length := by
  intro fuel
  induction fuel with
  | zero => intro j i _ e he; simp [mEnds] at he
  | succ f ih =>
    intro j i hi e he
    match j with
    | .one (.ch c) =>
      rw [mEnds] at he
      cases hget : s.get? i with
      | none => rw [hget] at he; simp at he
      | some d =>
        rw [hget] at he
        have hlt : i < s.length := (List.get?_eq_some.1 hget).1
        split at he <;> simp at he
        omega
    | .one .dot =>
      rw [mEnds] at he
      cases hget : s.get? i with
      | none => rw [hget] at he; simp at he
      | some d =>
        rw [hget] at he
        have hlt : i < s.length := (List.get?_eq_some.1 hget).1
        split at he <;> simp at he
        omega
    | .one .wordc =>
      rw [mEnds] at he
      cases hget : s.get? i with
      | none => rw [hget] at he; simp at he
      | some d =>
        rw [hget] at he
        have hlt : i < s.length := (List.get?_eq_some.1 hget).1
        split at he <;> simp at he
        omega
    | .one (.cls rs) =>
      rw [mEnds] at he
      cases hget : s.get? i with
      | none => rw [hget] at he; simp at he
      | some d =>
        rw [hget] at he
        have hlt : i < s.length := (List.get?_eq_some.1 hget).1
        split at he <;> simp at he
        omega
    | .one .wb =>
      rw [mEnds] at he
      split at he <;> simp at he
      omega
    | .one .bol =>
      rw [mEnds] at he
      split at he <;> simp at he
      omega
    | .one .eol =>
      rw [mEnds] at he
      split at he <;> simp at he
      omega
    | .one (.star r) =>
      rw [mEnds] at he
      rcases List.mem_append.1 he with hstar | hself
      · exact ih (.star r) i hi e hstar
      · simp at hself; omega
    | .one (.plus r) =>
      rw [mEnds] at he
      obtain ⟨e1, he1, he2⟩ := List.mem_flatMap.1 he
      obtain ⟨h1, h2⟩ := ih (.one r) i hi e1 he1
      rcases List.mem_append.1 he2 with hstar | hself
      · obtain ⟨h3, h4⟩ := ih (.star r) e1 h2 e hstar
        exact ⟨by omega, h4⟩
      · simp at hself; omega
    | .one (.grp rs) =>
      rw [mEnds] at he
      exact ih (.seq rs) i hi e he
    | .seq [] =>
      rw [mEnds] at he
      simp at he
      omega
    | .seq (r :: rs) =>
      rw [mEnds] at he
      obtain ⟨e1, he1, he2⟩ := List.mem_flatMap.1 he
      obtain ⟨h1, h2⟩ := ih (.one r) i hi e1 he1
      obtain ⟨h3, h4⟩ := ih (.seq rs) e1 h2 e he2
      exact ⟨by omega, h4⟩
    | .star r =>
      rw [mEnds] at he
      obtain ⟨e1, he1, he2⟩ := List.mem_flatMap.1 he
      obtain ⟨h1, h2⟩ := ih (.one r) i hi e1 (List.mem_filter.1 he1).1
      rcases List.mem_append.1 he2 with hstar | hself
      · obtain ⟨h3, h4⟩ := ih (.star r) e1 h2 e hstar
        exact ⟨by omega, h4⟩
      · simp at hself; omega

/-- Every match `exec` reports starts at or after the scan position and
spans a well-formed range inside the text. -/
theorem execFrom_bounds (ic : Bool) (s : List Char) (p : List RE) :
    ∀ (fuel pos i e : Nat), execFrom ic s p fuel pos = some (i, e) →
    pos ≤ i ∧ i ≤ e ∧ e ≤ s.length := by
  intro fuel
  induction fuel with
  | zero => intro pos i e h; simp [execFrom] at h
  | succ f ih =>
    intro pos i e h
    rw [execFrom] at h
    split at h
    · simp at h
    · rename_i hpos
      cases hm : mEnds ic s (mFuel s) (.seq p) pos with
      | nil =>
        rw [hm] at h
        have := ih (pos + 1) i e h
        omega
      | cons e1 rest =>
        rw [hm] at h
        simp at h
        obtain ⟨h1, h2⟩ := h
        have hmem : e1 ∈ mEnds ic s (mFuel s) (.seq p) pos := by rw [hm]; simp
        have := mEnds_bounds ic s (mFuel s) (.seq p) pos (by omega) e1 hmem
        omega

/-- Every match descriptor the per-node `exec` loop produces has
`startOffset ≤ endOffset ≤ length` of the node's text and refers back to
that node. -/
theorem findLoop_offsets (ic : Bool) (s : List Char) (p : List RE) (node : TextNode) :
    ∀ (fuel gIdx li : Nat), ∀ m ∈ findLoop ic s p node gIdx fuel li,
    m.startOffset ≤ m.endOffset ∧ m.endOffset ≤ s.length ∧ m.node = node := by
  intro fuel
  induction fuel with
  | zero => intro gIdx li m hm; simp [findLoop] at hm
  | succ f ih =>
    intro gIdx li m hm
    rw [findLoop] at hm
    cases hex : execFrom ic s p (s.length + 2) li with
    | none => rw [hex] at hm; simp at hm
    | some pe =>
      obtain ⟨i, e⟩ := pe
      rw [hex] at hm
      rcases List.mem_cons.1 hm with rfl | hm'
      · obtain ⟨h1, h2, h3⟩ := execFrom_bounds ic s p (s.length + 2) li i e hex
        exact ⟨h2, h3, rfl⟩
      · exact ih (gIdx + 1) (if i = e then e + 1 else e) m hm'

/-- The node loop preserves the offsets invariant: all produced
descriptors (beyond a well-formed accumulator) satisfy
`startOffset ≤ endOffset ≤ length` of their own node's text. -/
theorem searchLoopNodes_offsets (ic : Bool) (p : List RE) :
    ∀ (nodes : List TextNode) (acc : List MatchData),
    (∀ m ∈ acc, m.startOffset ≤ m.endOffset ∧ m.endOffset ≤ m.node.text.length) →
    ∀ m ∈ searchLoopNodes ic p nodes acc,
      m.startOffset ≤ m.endOffset ∧ m.endOffset ≤ m.node.text.length := by
  intro nodes
  induction nodes with
  | nil =>
    intro acc hacc m hm
    rw [searchLoopNodes] at hm
    exact hacc m hm
  | cons n rest ih =>
    intro acc hacc m hm
    rw [searchLoopNodes] at hm
    split at hm
    · exact hacc m hm
    · refine ih (acc ++ findMatchesInNode ic p n acc.length) ?_ m hm
      intro m' hm'
      rcases List.mem_append.1 hm' with hl | hr
      · exact hacc m' hl
      · obtain ⟨h1, h2, h3⟩ := findLoop_offsets ic n.text.toList p n
          (n.text.toList.length + 2) acc.length 0 m' hr
        rw [strLen_toList] at h2
        exact ⟨h1, by rw [h3]; exact h2⟩

/-- C6 counterexample: the claim's strict inequality
`startOffset < endOffset` fails — a zero-width-capable regex query
(here "z*" with `isRegex = true` on the text "b") produces match
descriptors with `startOffset = endOffset` (the loop's zero-width guard
keeps iteration going but the descriptors are created with an empty
span). -/
theorem C6_counterexample :
    ¬ (∀ m ∈ (SearchEngine.search ("z*") regexOptions [textNodeOf ("b")] 3).«matches»,
        m.startOffset < m.endOffset) := by
  decide

/-- C6 (amended): every match descriptor produced by `search` satisfies
`0 ≤ startOffset ≤ endOffset ≤ length` of the source node's text — the
inequality between start and end is non-strict, because zero-width
matches of regex queries create descriptors with `startOffset =
endOffset`. -/
theorem C6_amended_offsets (query : String) (options : SearchOptions) (doc : List TextNode)
    (elapsed : Nat) (m : MatchData)
    (hmem : m ∈ (SearchEngine.search query options doc elapsed).«matches») :
    m.startOffset ≤ m.endOffset ∧ m.endOffset ≤ m.node.text.length := by
  unfold SearchEngine.search at hmem
  split at hmem
  · simp at hmem
  · cases hbp : buildPattern query options with
    | none => rw [hbp] at hmem; simp at hmem
    | some pic =>
      obtain ⟨p, ic⟩ := pic
      rw [hbp] at hmem
      simp only at hmem
      exact searchLoopNodes_offsets ic p (textNodes doc) [] (by simp) m hmem

/-- C6 witness: the amended invariant at the literal query "a" on a
one-node document, at the descriptor the search produces. -/
theorem C6_amended_offsets_witness :
    (⟨"a", 0, textNodeOf ("a"), 0, 1⟩ : MatchData).startOffset ≤
      (⟨"a", 0, textNodeOf ("a"), 0, 1⟩ : MatchData).endOffset ∧
    (⟨"a", 0, textNodeOf ("a"), 0, 1⟩ : MatchData).endOffset ≤
      (⟨"a", 0, textNodeOf ("a"), 0, 1⟩ : MatchData).node.text.length :=
  C6_amended_offsets ("a") plainOptions [textNodeOf ("a")] 2
    ⟨"a", 0, textNodeOf ("a"), 0, 1⟩ (by decide)

/-- `dropWhile` with the whitespace test leaves a replicated-'a' list
unchanged. -/
theorem dropWhile_repl (n : Nat) :
    (List.replicate n 'a').dropWhile jsWhitespace = List.replicate n 'a' := by
  cases n with
  | zero => rfl
  | succ n =>
    rw [List.replicate_succ, List.dropWhile_cons]
    rw [show jsWhitespace 'a' = false from rfl]
    simp

/-- The JavaScript trim of a replicated-'a' list is the list itself. -/
theorem jsTrim_repl (n : Nat) :
    jsTrim (List.replicate n 'a') = List.replicate n 'a' := by
  unfold jsTrim
  rw [dropWhile_repl, List.reverse_replicate, dropWhile_repl, List.reverse_replicate]

/-- A text node under a visible div with non-whitespace content is
accepted by the traversal filter. -/
theorem shouldInclude_of (t : String) (htrim : ¬ (jsTrim t.toList = [])) :
    shouldIncludeNode { text := t, parent := some visibleParent } = true := by
  simp only [shouldIncludeNode]
  rw [if_neg htrim]
  decide

/-- The 10050-'a' node is accepted by the traversal filter. -/
theorem bigNode_included : shouldIncludeNode bigNode = true := by
  have htrim : ¬ (jsTrim (String.mk (List.replicate 10050 'a')).toList = []) := by
    rw [show (String.mk (List.replicate 10050 'a')).toList = List.replicate 10050 'a' from rfl,
      jsTrim_repl]
    intro hnil
    have hlen := congrArg List.length hnil
    rw [List.length_replicate, List.length_nil] at hlen
    omega
  exact shouldInclude_of (String.mk (List.replicate 10050 'a')) htrim

/-- A one-node document holding the 10050-'a' node survives the filter
whole. -/
theorem textNodes_big : textNodes [bigNode] = [bigNode] := by
  simp [textNodes, bigNode_included]

/-- Element lookup in a replicated list below its length. -/
theorem get?_replicate_lt (n i : Nat) (h : i < n) :
    (List.replicate n 'a').get? i = some 'a' := by
  rw [List.get?_eq_get (by simpa using h)]
  simp

/-- Matching the one-character pattern at a position holding 'a'
(case-sensitive flags) yields exactly the end position one past it. -/
theorem mEnds_repl_hit (N f i : Nat) (h : i < N) :
    mEnds false (List.replicate N 'a') (f + 2) (.seq [.ch 'a']) i = [i + 1] := by
  have h1 : mEnds false (List.replicate N 'a') (f + 1) (.one (.ch 'a')) i = [i + 1] := by
    rw [mEnds, get?_replicate_lt N i h]
    simp [foldc]
  have h2 : mEnds false (List.replicate N 'a') (f + 1) (.seq []) (i + 1) = [i + 1] := by
    rw [mEnds]
  rw [mEnds, h1]
  simp [h2]

/-- Matching the one-character pattern at or past the end of the text
fails. -/
theorem mEnds_repl_miss (N f i : Nat) (h : N ≤ i) :
    mEnds false (List.replicate N 'a') (f + 2) (.seq [.ch 'a']) i = [] := by
  have h1 : mEnds false (List.replicate N 'a') (f + 1) (.one (.ch 'a')) i = [] := by
    rw [mEnds, show (List.replicate N 'a').get? i = none from by
      rw [List.get?_eq_none]; simpa]
  rw [mEnds, h1]
  simp

/-- The matcher fuel is at least two. -/
theorem mFuel_succ (s : List Char) : mFuel s = ((s.length + 2) * 50 + 98) + 2 := by
  unfold mFuel
  omega

/-- `exec` from a position strictly inside the replicated text reports
the one-character match at that very position. -/
theorem execFrom_repl_hit (N f pos : Nat) (h : pos < N) :
    execFrom false (List.replicate N 'a') [.ch 'a'] (f + 1) pos = some (pos, pos + 1) := by
  rw [execFrom]
  rw [if_neg (by simp only [List.length_replicate]; omega)]
  rw [mFuel_succ, List.length_replicate, mEnds_repl_hit N _ pos h]

/-- `exec` from a position at or past the end of the replicated text
fails (after scanning the remaining positions). -/
theorem execFrom_repl_none (N : Nat) : ∀ (f pos : Nat), N ≤ pos →
    execFrom false (List.replicate N 'a') [.ch 'a'] f pos = none := by
  intro f
  induction f with
  | zero => intro pos _; rw [execFrom]
  | succ f ih =>
    intro pos h
    rw [execFrom]
    by_cases hlt : (List.replicate N 'a').length < pos
    · rw [if_pos hlt]
    · rw [if_neg hlt, mFuel_succ, List.length_replicate, mEnds_repl_miss N _ pos h]
      exact ih (pos + 1) (by omega)

/-- On a text of `N` repetitions of 'a' with the escaped one-character
pattern, the `exec` loop started at `lastIndex = li` produces exactly
one match per remaining position: `N - li` matches (given enough
fuel). -/
theorem findLoop_repl_len (N : Nat) (node : TextNode) :
    ∀ (k li g f : Nat), li + k = N → k + 1 ≤ f →
    (findLoop false (List.replicate N 'a') [.ch 'a'] node g f li).length = k := by
  intro k
  induction k with
  | zero =>
    intro li g f hli hf
    cases f with
    | zero => omega
    | succ f =>
      rw [findLoop]
      rw [execFrom_repl_none N _ li (by omega)]
      rfl
  | succ k ih =>
    intro li g f hli hf
    cases f with
    | zero => omega
    | succ f =>
      rw [findLoop]
      have hhit : execFrom false (List.replicate N 'a') [RE.ch 'a']
          ((List.replicate N 'a').length + 2) li = some (li, li + 1) := by
        rw [show (List.replicate N 'a').length + 2 = ((List.replicate N 'a').length + 1) + 1
          from rfl]
        exact execFrom_repl_hit N _ li (by omega)
      rw [hhit]
      have hred : (if li = li + 1 then li + 1 + 1 else li + 1) = li + 1 := by simp
      simp only [hred, List.length_cons]
      rw [ih (li + 1) (g + 1) f (by omega) (by omega)]

/-- C2 counterexample: the cap check runs only between nodes
(`if (matches.length >= MAX_MATCHES) break` before each node), while
`findMatchesInNode` itself is uncapped — so a *single* text node
containing 10050 occurrences of the one-character query "a" yields
10050 matches, refuting both "at most 10,000 matches" and "a document
containing 10,050 occurrences of a single-character query yields
exactly 10,000 matches". -/
theorem C2_counterexample :
    (SearchEngine.search ("a") csOptions [bigNode] 0).totalCount = 10050 ∧
    MAX_MATCHES < (SearchEngine.search ("a") csOptions [bigNode] 0).totalCount := by
  have hmain : (SearchEngine.search ("a") csOptions [bigNode] 0).totalCount = 10050 := by
    unfold SearchEngine.search
    rw [if_neg (by decide)]
    have hbp : buildPattern ("a") csOptions = some ([RE.ch 'a'], false) := rfl
    rw [hbp]
    simp only
    rw [textNodes_big, searchLoopNodes]
    rw [if_neg (by simp [MAX_MATCHES])]
    rw [searchLoopNodes]
    simp only [List.nil_append]
    show (findMatchesInNode false [RE.ch 'a'] bigNode 0).length = 10050
    unfold findMatchesInNode
    rw [show bigNode.text.toList = List.replicate 10050 'a' from rfl]
    simp only
    rw [List.length_replicate]
    exact findLoop_repl_len 10050 bigNode 10050 0 0 10052 (by omega) (by omega)
  exact ⟨hmain, by rw [hmain]; decide⟩

/-- The number of matches the per-node loop produces does not depend on
the global start index threaded through for numbering. -/
theorem findLoop_len_indep (ic : Bool) (s : List Char) (p : List RE) (node : TextNode) :
    ∀ (f li g g' : Nat),
    (findLoop ic s p node g f li).length = (findLoop ic s p node g' f li).length := by
  intro f
  induction f with
  | zero => intro li g g'; rfl
  | succ f ih =>
    intro li g g'
    simp only [findLoop]
    cases hex : execFrom ic s p (s.length + 2) li with
    | none => rfl
    | some pe =>
      obtain ⟨i, e⟩ := pe
      simp only [List.length_cons]
      rw [ih]

/-- The node loop never grows past `MAX_MATCHES - 1` plus one node's
worth of matches: once the accumulator reaches the cap no further node
is processed, and before that each node adds at most `c` matches. -/
theorem searchLoopNodes_cap (ic : Bool) (p : List RE) (c : Nat) :
    ∀ (nodes : List TextNode) (acc : List MatchData),
    acc.length ≤ MAX_MATCHES - 1 + c →
    (∀ node ∈ nodes, ∀ g, (findMatchesInNode ic p node g).length ≤ c) →
    (searchLoopNodes ic p nodes acc).length ≤ MAX_MATCHES - 1 + c := by
  intro nodes
  induction nodes with
  | nil =>
    intro acc hacc _
    rw [searchLoopNodes]
    exact hacc
  | cons n rest ih =>
    intro acc hacc hc
    rw [searchLoopNodes]
    split
    · exact hacc
    · rename_i hlt
      refine ih (acc ++ findMatchesInNode ic p n acc.length) ?_
        (fun x hx g => hc x (by simp [hx]) g)
      rw [List.length_append]
      have := hc n (by simp) acc.length
      unfold MAX_MATCHES at *
      omega

/-- C2 (amended): `totalCount` always equals the length of the returned
match list; and the 10,000-match ceiling is enforced only at node
granularity — traversal stops before starting a new node once the count
reaches the cap, so whenever every accepted text node contributes at
most `c` matches, the result holds at most `9,999 + c` matches (in
particular, 10,050 occurrences spread over nodes with at most one
occurrence each yield at most 10,000 matches).  A single node may push
the count past 10,000, as the counterexample shows. -/
theorem C2_amended_cap :
    (∀ (q : String) (o : SearchOptions) (d : List TextNode) (e : Nat),
      (SearchEngine.search q o d e).totalCount =
        (SearchEngine.search q o d e).«matches».length) ∧
    (∀ (q : String) (o : SearchOptions) (d : List TextNode) (e c : Nat)
        (p : List RE) (ic : Bool),
      buildPattern q o = some (p, ic) →
      (∀ node ∈ textNodes d, ∀ g, (findMatchesInNode ic p node g).length ≤ c) →
      (SearchEngine.search q o d e).«matches».length ≤ MAX_MATCHES - 1 + c) := by
  constructor
  · intro q o d e
    unfold SearchEngine.search
    split
    · rfl
    · split
      · rfl
      · rfl
  · intro q o d e c p ic hbp hc
    unfold SearchEngine.search
    split
    · simp
    · rw [hbp]
      simp only
      exact searchLoopNodes_cap ic p c (textNodes d) [] (by simp) hc

/-- C2 witness: the amended theorem at the one-character query "a" on a
one-node document whose node contains a single occurrence (`c = 1`). -/
theorem C2_amended_cap_witness :
    (SearchEngine.search ("a") csOptions [textNodeOf ("a")] 2).totalCount =
      (SearchEngine.search ("a") csOptions [textNodeOf ("a")] 2).«matches».length ∧
    (SearchEngine.search ("a") csOptions [textNodeOf ("a")] 2).«matches».length ≤
      MAX_MATCHES - 1 + 1 :=
  ⟨C2_amended_cap.1 ("a") csOptions [textNodeOf ("a")] 2,
   C2_amended_cap.2 ("a") csOptions [textNodeOf ("a")] 2 1 [RE.ch 'a'] false rfl
     (by
       intro node hnode g
       have hmem : node ∈ [textNodeOf ("a")] := (List.mem_filter.1 hnode).1
       have heq : node = textNodeOf ("a") := by simpa using hmem
       subst heq
       show (findMatchesInNode false [RE.ch 'a'] (textNodeOf ("a")) g).length ≤ 1
       unfold findMatchesInNode
       rw [findLoop_len_indep false ((textNodeOf ("a")).text.toList) [RE.ch 'a']
         (textNodeOf ("a")) (((textNodeOf ("a")).text.toList).length + 2) 0 g 0]
       decide)⟩
